import Mathlib

/-!
Verification development for the transcribe_async.py sample: a shallow
embedding of its pure logic (filename generation, timestamp and confidence
formatting, CSV output) and of its pipeline control flow (transcode, upload,
submit, completion callbacks), with theorems checking the documented
properties. Real-number arithmetic from the source is modelled exactly over
the rationals, and the external collaborators (subprocess, object storage,
the speech service and its long-running operation handle) are modelled as an
explicit environment and an event trace.
-/

namespace TranscribeAsync

/-! ### Python path helpers: os.path.basename and os.path.splitext -/

/-- Splits a character list around the last occurrence of the separator:
the parts before and after it, separator excluded, or none when the
separator does not occur. -/
def breakAtLast (sep : Char) : List Char → Option (List Char × List Char)
  | [] => none
  | c :: rest =>
    match breakAtLast sep rest with
    | some (pre, post) => some (c :: pre, post)
    | none => if c = sep then some ([], rest) else none

/-- Model of os.path.basename for POSIX paths: the part after the last slash. -/
def basename (p : String) : String :=
  match breakAtLast '/' p.data with
  | some (_, post) => String.mk post
  | none => p

/-- Model of os.path.splitext: split at the last dot of the final path
component, keeping that dot in the extension; a final component whose
characters before the last dot are all dots (such as .bashrc) is not split. -/
def splitext (p : String) : String × String :=
  let (dir, name) :=
    match breakAtLast '/' p.data with
    | some (pre, post) => (pre ++ ['/'], post)
    | none => ([], p.data)
  match breakAtLast '.' name with
  | none => (p, "")
  | some (pre, post) =>
    if pre.all (fun c => c = '.') then (p, "")
    else (String.mk (dir ++ pre), String.mk ('.' :: post))

/-- Model of str.startswith. -/
def pyStartsWith (s pre : String) : Bool :=
  pre.data.isPrefixOf s.data

/-! ### The filename generator -/

/-- A broken-down UTC clock reading, as consumed by strftime. -/
structure DateTime where
  year : Nat
  month : Nat
  day : Nat
  hour : Nat
  minute : Nat
  second : Nat

/-- Decimal digits of a natural number, zero-padded on the left to the given
width, as produced by the %Y, %m, %d, %H, %M, %S fields of strftime. -/
def padNat (width : Nat) (n : Nat) : String :=
  String.mk (List.replicate (width - (toString n).length) '0') ++ toString n

/-- Model of datetime.datetime.utcnow().strftime applied to the format
%Y-%m-%d-%H%M%S. -/
def strftimeStamp (d : DateTime) : String :=
  padNat 4 d.year ++ "-" ++ padNat 2 d.month ++ "-" ++ padNat 2 d.day ++ "-" ++
    padNat 2 d.hour ++ padNat 2 d.minute ++ padNat 2 d.second

/-- Model of _safe_filename, with the clock passed explicitly. The source
computes basename, extension = os.path.splitext(os.path.basename(filename))
and returns basename + "-" + date + "." + extension. -/
def _safe_filename (filename : String) (now : DateTime) : String :=
  let date := strftimeStamp now
  let (bn, extension) := splitext (basename filename)
  bn ++ "-" ++ date ++ "." ++ extension

/-- Exactly the character shape dddd-dd-dd-dddddd of a strftime stamp. -/
def timestampShape : List Char → Bool
  | [y1, y2, y3, y4, '-', m1, m2, '-', d1, d2, '-', h1, h2, n1, n2, s1, s2] =>
    (y1.isDigit && y2.isDigit && y3.isDigit && y4.isDigit) &&
    (m1.isDigit && m2.isDigit && d1.isDigit && d2.isDigit) &&
    (h1.isDigit && h2.isDigit && n1.isDigit && n2.isDigit &&
      s1.isDigit && s2.isDigit)
  | _ => false

/-- The object-name pattern claimed by the spec for input base.ext: the base,
a dash, a 4-2-2-6 digit timestamp, then exactly one dot and the original
extension, anchored at both ends. -/
def matchesSpecPattern (base ext s : String) : Bool :=
  let pre := (base ++ "-").data
  let suf := ("." ++ ext).data
  (s.data.take pre.length == pre) &&
  timestampShape ((s.data.drop pre.length).take 17) &&
  ((s.data.drop pre.length).drop 17 == suf)

/-- C1: refuted by the code. On input audio.raw at clock 2020-01-02 03:04:05
the filename generator produces audio-2020-01-02-030405..raw, with two dots
before the extension, because os.path.splitext keeps the leading dot in the
extension and the format string inserts another one; the generated name
therefore does not match the claimed single-dot pattern, although the
docstring of _safe_filename itself promises a single dot. -/
theorem c1_safe_filename_double_dot :
    _safe_filename "audio.raw" ⟨2020, 1, 2, 3, 4, 5⟩ =
      "audio-2020-01-02-030405..raw" ∧
    matchesSpecPattern "audio" "raw"
      (_safe_filename "audio.raw" ⟨2020, 1, 2, 3, 4, 5⟩) = false := by
  decide

/-! ### Timestamp formatting in save_results -/

/-- A protobuf duration, as carried by word start times: whole seconds plus
nanoseconds (the protobuf invariant keeps nanos below one billion). -/
structure Duration where
  seconds : Nat
  nanos : Nat
deriving DecidableEq

/-- Model of the Python int() conversion: truncation toward zero. -/
def pyTrunc (q : ℚ) : ℤ :=
  if 0 ≤ q then ⌊q⌋ else -⌊-q⌋

/-- Model of the format spec :0>2d applied to an integer: its decimal digits,
left-padded with the character 0 to the requested width. -/
def padZ (width : Nat) (z : ℤ) : String :=
  String.mk (List.replicate (width - (toString z).length) '0') ++ toString z

/-- Round half to even on a rational: the rounding applied by IEEE
floating-point operations and by fixed-point float formatting. -/
def roundHalfEven (q : ℚ) : ℤ :=
  if q - ⌊q⌋ < 1/2 then ⌊q⌋
  else if 1/2 < q - ⌊q⌋ then ⌊q⌋ + 1
  else if ⌊q⌋ % 2 = 0 then ⌊q⌋ else ⌊q⌋ + 1

/-- Round to nearest at scale 2^e: the nearest integer multiple of 2^e,
ties to even. -/
def roundScale (e : ℤ) (q : ℚ) : ℚ :=
  (roundHalfEven (q / 2 ^ e) : ℚ) * 2 ^ e

/-- IEEE-754 binary64 rounding of an exact rational: round to nearest,
ties to even, with a 53-bit significand. Normal range only: the values of
this program never approach the subnormal or overflow thresholds. -/
def fl64 (q : ℚ) : ℚ :=
  if q = 0 then 0
  else if 0 < q then roundScale (Int.log 2 q - 52) q
  else -roundScale (Int.log 2 (-q) - 52) (-q)

/-- The binary64 value of the literal 1e-9 on line 118. -/
def float1e9 : ℚ := fl64 (1 / 1000000000)

/-- Line 118: timestamp = timestamp.seconds + 1e-9 * timestamp.nanos, in
IEEE double semantics: the literal 1e-9 is a binary64 value, and the
product and the sum each round to binary64; the int operands, being far
below 2^53, convert exactly. -/
def tsRat (d : Duration) : ℚ :=
  fl64 ((d.seconds : ℚ) + fl64 (float1e9 * (d.nanos : ℚ)))

/-- Line 119: timestamp_hrs = int(timestamp // 3600). The floor division
on floats yields the floor as a float; int() then truncates it. -/
def tsHrs (d : Duration) : ℤ :=
  pyTrunc ((⌊tsRat d / 3600⌋ : ℤ) : ℚ)

/-- Line 120: timestamp_mins = int((timestamp - timestamp_hrs * 3600) // 60). -/
def tsMins (d : Duration) : ℤ :=
  pyTrunc ((⌊(tsRat d - (tsHrs d : ℚ) * 3600) / 60⌋ : ℤ) : ℚ)

/-- Line 121: timestamp_secs =
int(timestamp - timestamp_mins * 60 - timestamp_hrs * 3600). -/
def tsSecs (d : Duration) : ℤ :=
  pyTrunc (tsRat d - (tsMins d : ℚ) * 60 - (tsHrs d : ℚ) * 3600)

/-- Line 122: the HH:MM:SS string built with the :0>2d format spec. -/
def formatTimestamp (d : Duration) : String :=
  padZ 2 (tsHrs d) ++ ":" ++ padZ 2 (tsMins d) ++ ":" ++ padZ 2 (tsSecs d)

/-- Stated from the spec wording: the whole-second count decomposed into
integer hours, minutes and seconds, each zero-padded to two digits. -/
def specTimestampHHMMSS (n : Nat) : String :=
  padZ 2 ((n / 3600 : Nat) : ℤ) ++ ":" ++ padZ 2 ((n / 60 % 60 : Nat) : ℤ) ++
    ":" ++ padZ 2 ((n % 60 : Nat) : ℤ)

lemma pyTrunc_intCast (z : ℤ) : pyTrunc ((z : ℚ)) = z := by
  unfold pyTrunc
  split
  · exact Int.floor_intCast z
  · rw [← Int.cast_neg, Int.floor_intCast, neg_neg]

lemma pyTrunc_nonneg (q : ℚ) (h : 0 ≤ q) : pyTrunc q = ⌊q⌋ := by
  unfold pyTrunc
  exact if_pos h

lemma floor_natCast_add_frac (m : ℕ) (ε : ℚ) (h0 : 0 ≤ ε) (h1 : ε < 1) :
    ⌊(m : ℚ) + ε⌋ = (m : ℤ) := by
  rw [Int.floor_eq_iff]
  constructor
  · simp only [Int.cast_natCast]
    linarith
  · simp only [Int.cast_natCast]
    linarith

lemma floor_div_natCast_add_frac (s k : ℕ) (hk : 0 < k) (ε : ℚ)
    (h0 : 0 ≤ ε) (h1 : ε < 1) :
    ⌊((s : ℚ) + ε) / (k : ℚ)⌋ = ((s / k : ℕ) : ℤ) := by
  have hkq : (0 : ℚ) < (k : ℚ) := by exact_mod_cast hk
  have key : ((s / k : ℕ) : ℚ) * (k : ℚ) ≤ (s : ℚ) := by
    exact_mod_cast Nat.div_mul_le_self s k
  have hd : (k : ℚ) * ((s / k : ℕ) : ℚ) + ((s % k : ℕ) : ℚ) = (s : ℚ) := by
    exact_mod_cast Nat.div_add_mod s k
  have hmn : s % k + 1 ≤ k := Nat.mod_lt s hk
  have hm : ((s % k : ℕ) : ℚ) + 1 ≤ (k : ℚ) := by exact_mod_cast hmn
  have hexp : (((s / k : ℕ) : ℚ) + 1) * (k : ℚ) =
      (k : ℚ) * ((s / k : ℕ) : ℚ) + (k : ℚ) := by ring
  rw [Int.floor_eq_iff]
  constructor
  · simp only [Int.cast_natCast]
    rw [le_div_iff₀ hkq]
    linarith
  · simp only [Int.cast_natCast]
    rw [div_lt_iff₀ hkq]
    linarith

lemma roundHalfEven_eq_floor (q : ℚ) (h : q - ⌊q⌋ < 1/2) :
    roundHalfEven q = ⌊q⌋ := by
  unfold roundHalfEven
  rw [if_pos h]

lemma roundHalfEven_eq_floor_add_one (q : ℚ) (h : 1/2 < q - ⌊q⌋) :
    roundHalfEven q = ⌊q⌋ + 1 := by
  unfold roundHalfEven
  rw [if_neg (by linarith), if_pos h]

lemma roundHalfEven_ge_floor (q : ℚ) : ⌊q⌋ ≤ roundHalfEven q := by
  unfold roundHalfEven
  split
  · omega
  · split
    · omega
    · split <;> omega

lemma Int_log_two_eq {q : ℚ} {z : ℤ} (h0 : 0 < q)
    (h1 : (2 : ℚ) ^ z ≤ q) (h2 : q < (2 : ℚ) ^ (z + 1)) :
    Int.log 2 q = z := by
  have hcast : ((2 : ℕ) : ℚ) = (2 : ℚ) := by norm_num
  have ha : z ≤ Int.log 2 q := by
    rw [← Int.zpow_le_iff_le_log (by norm_num) h0, hcast]
    exact h1
  have hb : Int.log 2 q < z + 1 := by
    rw [← Int.lt_zpow_iff_log_lt (by norm_num) h0, hcast]
    exact h2
  omega

/-- Evaluation rule for fl64: once the binade 2^z ≤ q < 2^(z+1) and the
rounded significand are known, the rounded value follows. -/
lemma fl64_eval (q : ℚ) (z m : ℤ) (h0 : 0 < q)
    (h1 : (2 : ℚ) ^ z ≤ q) (h2 : q < (2 : ℚ) ^ (z + 1))
    (hm : roundHalfEven (q / 2 ^ (z - 52)) = m) :
    fl64 q = (m : ℚ) * 2 ^ (z - 52) := by
  unfold fl64
  rw [if_neg (ne_of_gt h0), if_pos h0, Int_log_two_eq h0 h1 h2]
  unfold roundScale
  rw [hm]

lemma fl64_nonneg (q : ℚ) (h : 0 ≤ q) : 0 ≤ fl64 q := by
  unfold fl64
  split
  · exact le_refl 0
  · next hne =>
    split
    · next hpos =>
      unfold roundScale
      have hz : (0 : ℚ) < 2 ^ (Int.log 2 q - 52) := by positivity
      have hfl : (0 : ℤ) ≤ ⌊q / 2 ^ (Int.log 2 q - 52)⌋ :=
        Int.floor_nonneg.mpr (div_nonneg h (le_of_lt hz))
      have hrhe := roundHalfEven_ge_floor (q / 2 ^ (Int.log 2 q - 52))
      have hn : (0 : ℤ) ≤ roundHalfEven (q / 2 ^ (Int.log 2 q - 52)) :=
        le_trans hfl hrhe
      exact mul_nonneg (by exact_mod_cast hn) (le_of_lt hz)
    · next hnpos =>
      exact absurd (lt_of_le_of_ne h (Ne.symm hne)) hnpos

lemma tsRat_nonneg (d : Duration) : 0 ≤ tsRat d := by
  unfold tsRat
  apply fl64_nonneg
  apply add_nonneg (Nat.cast_nonneg _)
  apply fl64_nonneg
  apply mul_nonneg _ (Nat.cast_nonneg _)
  unfold float1e9
  apply fl64_nonneg
  norm_num

/-- The decomposition performed by lines 119 to 122: whenever the binary64
value of line 118 splits as a whole-second count s plus a remainder below
one, the printed string is the HH:MM:SS decomposition of s. -/
lemma formatTimestamp_decomp_of (d : Duration) (s : ℕ) (ε : ℚ)
    (htrat : tsRat d = (s : ℚ) + ε) (hε0 : (0 : ℚ) ≤ ε) (hε1 : ε < 1) :
    formatTimestamp d = specTimestampHHMMSS s := by
  have hc3600 : ((3600 : ℕ) : ℚ) = 3600 := by norm_num
  have hc60 : ((60 : ℕ) : ℚ) = 60 := by norm_num
  -- hours
  have hfl1 : ⌊((s : ℚ) + ε) / ((3600 : ℕ) : ℚ)⌋ = ((s / 3600 : ℕ) : ℤ) :=
    floor_div_natCast_add_frac s 3600 (by norm_num) ε hε0 hε1
  rw [hc3600] at hfl1
  have hhrs : tsHrs d = ((s / 3600 : ℕ) : ℤ) := by
    simp only [tsHrs]
    rw [htrat, hfl1, pyTrunc_intCast]
  -- minutes
  have hdm1 : 3600 * (s / 3600) + s % 3600 = s := Nat.div_add_mod s 3600
  have hdm1q : (3600 : ℚ) * ((s / 3600 : ℕ) : ℚ) + ((s % 3600 : ℕ) : ℚ) =
      (s : ℚ) := by exact_mod_cast hdm1
  have harg1 : (s : ℚ) + ε - ((s / 3600 : ℕ) : ℚ) * 3600 =
      ((s % 3600 : ℕ) : ℚ) + ε := by linarith
  have hfl2 : ⌊(((s % 3600 : ℕ) : ℚ) + ε) / ((60 : ℕ) : ℚ)⌋ =
      ((s % 3600 / 60 : ℕ) : ℤ) :=
    floor_div_natCast_add_frac (s % 3600) 60 (by norm_num) ε hε0 hε1
  rw [hc60] at hfl2
  have hmins : tsMins d = ((s % 3600 / 60 : ℕ) : ℤ) := by
    simp only [tsMins]
    rw [htrat, hhrs]
    simp only [Int.cast_natCast]
    rw [harg1, hfl2, pyTrunc_intCast]
  -- seconds
  have hdm2 : 60 * (s % 3600 / 60) + s % 3600 % 60 = s % 3600 :=
    Nat.div_add_mod (s % 3600) 60
  have hdm2q : (60 : ℚ) * ((s % 3600 / 60 : ℕ) : ℚ) +
      ((s % 3600 % 60 : ℕ) : ℚ) = ((s % 3600 : ℕ) : ℚ) := by
    exact_mod_cast hdm2
  have hmod : ((s % 3600 % 60 : ℕ) : ℚ) = ((s % 60 : ℕ) : ℚ) := by
    have : s % 3600 % 60 = s % 60 := by omega
    exact_mod_cast congrArg (fun n : ℕ => (n : ℚ)) this
  have harg2 : (s : ℚ) + ε - ((s % 3600 / 60 : ℕ) : ℚ) * 60 -
      ((s / 3600 : ℕ) : ℚ) * 3600 = ((s % 60 : ℕ) : ℚ) + ε := by
    rw [← hmod]
    linarith
  have hfl3 : ⌊((s % 60 : ℕ) : ℚ) + ε⌋ = ((s % 60 : ℕ) : ℤ) :=
    floor_natCast_add_frac (s % 60) ε hε0 hε1
  have hsecs : tsSecs d = ((s % 60 : ℕ) : ℤ) := by
    simp only [tsSecs]
    rw [htrat, hhrs, hmins, pyTrunc_nonneg]
    · simp only [Int.cast_natCast]
      rw [harg2, hfl3]
    · simp only [Int.cast_natCast]
      rw [harg2]
      have hnn : (0 : ℚ) ≤ ((s % 60 : ℕ) : ℚ) := Nat.cast_nonneg _
      linarith
  -- assemble
  have e1 : s % 3600 / 60 = s / 60 % 60 := by omega
  simp only [formatTimestamp, specTimestampHHMMSS]
  rw [hhrs, hmins, hsecs, e1]

/-- The timestamp string computed by lines 119 to 122 is the HH:MM:SS
decomposition of the integer part of the binary64 value that line 118
produced: the fractional part of that double is truncated, and its integer
part is split into hours, minutes and seconds. -/
theorem formatTimestamp_trunc_decomp (d : Duration) :
    formatTimestamp d = specTimestampHHMMSS (⌊tsRat d⌋.toNat) := by
  have h0 : 0 ≤ tsRat d := tsRat_nonneg d
  have hfl0 : 0 ≤ ⌊tsRat d⌋ := Int.floor_nonneg.mpr h0
  have hscast : ((⌊tsRat d⌋.toNat : ℕ) : ℚ) = ((⌊tsRat d⌋ : ℤ) : ℚ) := by
    exact_mod_cast Int.toNat_of_nonneg hfl0
  apply formatTimestamp_decomp_of d (⌊tsRat d⌋.toNat)
    (tsRat d - ((⌊tsRat d⌋.toNat : ℕ) : ℚ))
  · ring
  · rw [hscast]
    linarith [Int.floor_le (tsRat d)]
  · rw [hscast]
    have hsub : tsRat d - ((⌊tsRat d⌋ : ℤ) : ℚ) < 1 :=
      by linarith [Int.lt_floor_add_one (tsRat d)]
    exact hsub

/-! ### Confidence formatting in save_results -/

/-- A two-character decimal string, 00 to 99. -/
def twoDigits (n : Nat) : String :=
  String.mk [Char.ofNat (48 + n / 10 % 10), Char.ofNat (48 + n % 10)]

/-- Model of the format spec :.2f applied to an exact rational value: scale
by 100, round half to even, print with a sign, the integer part and exactly
two fraction digits. -/
def format2f (q : ℚ) : String :=
  (if q < 0 then "-" else "") ++
    toString ((roundHalfEven (q * 100)).natAbs / 100) ++ "." ++
    twoDigits ((roundHalfEven (q * 100)).natAbs % 100)

/-! ### The recognition-result data model consumed by save_results -/

/-- One recognized word with its start time, as read on line 117. -/
structure WordInfo where
  word : String
  start_time : Duration
deriving DecidableEq

/-- One candidate transcription of a segment. -/
structure Alternative where
  transcript : String
  confidence : ℚ
  words : List WordInfo
deriving DecidableEq

/-- One consecutive recognized portion of the audio, with its ranked
alternatives. -/
structure Segment where
  alternatives : List Alternative
deriving DecidableEq

/-- Lines 116 to 124: the timestamp field of a row, empty when the first
alternative has no words. -/
def rowTimestampStr (alternative : Alternative) : String :=
  match alternative.words with
  | [] => ""
  | w :: _ => formatTimestamp w.start_time

/-- Lines 125 to 129: the three CSV fields written for one segment. -/
def formatRowFields (alternative : Alternative) : List String :=
  [rowTimestampStr alternative, format2f alternative.confidence,
    alternative.transcript]

/-! ### CSV writer and reader

Model of the csv module in its default excel dialect: comma delimiter,
double-quote quote character, minimal quoting with quote doubling, CRLF
line terminator. -/

/-- Characters that force a field to be quoted under minimal quoting. -/
def isCsvSpecial (c : Char) : Bool :=
  c = ',' || c = '"' || c = '\r' || c = '\n'

/-- Doubles every double-quote character. -/
def escapeQuotes : List Char → List Char
  | [] => []
  | '"' :: cs => '"' :: '"' :: escapeQuotes cs
  | c :: cs => c :: escapeQuotes cs

/-- One field as written under minimal quoting. -/
def quoteFieldChars (cs : List Char) : List Char :=
  if cs.any isCsvSpecial then '"' :: (escapeQuotes cs ++ ['"']) else cs

/-- One record: fields joined by commas, terminated by CRLF. -/
def unparseFieldsChars : List (List Char) → List Char
  | [] => ['\r', '\n']
  | [f] => quoteFieldChars f ++ ['\r', '\n']
  | f :: f2 :: fs => quoteFieldChars f ++ ',' :: unparseFieldsChars (f2 :: fs)

/-- A whole CSV text, record by record. -/
def unparseCsvChars : List (List (List Char)) → List Char
  | [] => []
  | r :: rs => unparseFieldsChars r ++ unparseCsvChars rs

/-- The CSV text for a list of rows of string fields, as csv.writer
produces it into a file opened with newline treatment disabled. -/
def unparseCsv (rows : List (List String)) : String :=
  String.mk (unparseCsvChars (rows.map (fun r => r.map String.data)))

/-- Reader state: inside or outside a quoted section of the current field. -/
inductive CsvMode
  | unquoted
  | quoted
deriving DecidableEq

/-- Character-level CSV reader for one record: accumulates the current field
and the finished fields, and returns the record with the unconsumed rest of
the input. A quote toggles quoted mode; a doubled quote inside a quoted
section yields one literal quote; a comma outside quotes ends the field; a
line break outside quotes ends the record; inside quotes every character is
literal. -/
def parseRecAux : List Char → CsvMode → List Char → List (List Char) →
    Option (List (List Char) × List Char)
  | [], .unquoted, acc, fs => some (fs ++ [acc], [])
  | [], .quoted, _, _ => none
  | ',' :: cs, .unquoted, acc, fs => parseRecAux cs .unquoted [] (fs ++ [acc])
  | '\r' :: '\n' :: cs, .unquoted, acc, fs => some (fs ++ [acc], cs)
  | '\r' :: cs, .unquoted, acc, fs => some (fs ++ [acc], cs)
  | '\n' :: cs, .unquoted, acc, fs => some (fs ++ [acc], cs)
  | '"' :: '"' :: cs, .quoted, acc, fs => parseRecAux cs .quoted (acc ++ ['"']) fs
  | '"' :: cs, .unquoted, acc, fs => parseRecAux cs .quoted acc fs
  | '"' :: cs, .quoted, acc, fs => parseRecAux cs .unquoted acc fs
  | c :: cs, .unquoted, acc, fs => parseRecAux cs .unquoted (acc ++ [c]) fs
  | c :: cs, .quoted, acc, fs => parseRecAux cs .quoted (acc ++ [c]) fs

/-- The reader for a whole CSV text, with a record-count fuel; every record
consumes at least one character, so fuel equal to the character count always
suffices. -/
def parseCsvAux : Nat → List Char → Option (List (List String))
  | _, [] => some []
  | 0, _ :: _ => none
  | fuel + 1, c :: cs =>
    match parseRecAux (c :: cs) .unquoted [] [] with
    | none => none
    | some (r, rest) =>
      (parseCsvAux fuel rest).map (fun rs => r.map String.mk :: rs)

/-- Model of reading the written file back with csv.reader. -/
def parseCsv (s : String) : Option (List (List String)) :=
  parseCsvAux s.data.length s.data

/-! ### Round trip of the CSV writer and reader -/

lemma parseRecAux_escaped (cs : List Char) :
    ∀ rest acc fs, rest.head? ≠ some '"' →
      parseRecAux (escapeQuotes cs ++ '"' :: rest) CsvMode.quoted acc fs =
        parseRecAux rest CsvMode.unquoted (acc ++ cs) fs := by
  induction cs with
  | nil =>
    intro rest acc fs hne
    cases rest with
    | nil => simp [escapeQuotes, parseRecAux]
    | cons r rs =>
      have hr : r ≠ '"' := by
        intro hcontra
        exact hne (by rw [hcontra]; rfl)
      simp [escapeQuotes, parseRecAux, hr]
  | cons c cs ih =>
    intro rest acc fs hne
    by_cases hc : c = '"'
    · subst hc
      simp only [escapeQuotes, List.cons_append, parseRecAux]
      exact (ih rest (acc ++ ['"']) fs hne).trans (by simp)
    · have hstep :
          parseRecAux (c :: (escapeQuotes cs ++ '"' :: rest)) CsvMode.quoted
            acc fs =
          parseRecAux (escapeQuotes cs ++ '"' :: rest) CsvMode.quoted
            (acc ++ [c]) fs := by
        simp [parseRecAux, hc]
      calc parseRecAux (escapeQuotes (c :: cs) ++ '"' :: rest) CsvMode.quoted
            acc fs =
          parseRecAux (escapeQuotes cs ++ '"' :: rest) CsvMode.quoted
            (acc ++ [c]) fs := by
            simp only [escapeQuotes, List.cons_append]
            exact hstep
        _ = parseRecAux rest CsvMode.unquoted ((acc ++ [c]) ++ cs) fs :=
            ih rest (acc ++ [c]) fs hne
        _ = parseRecAux rest CsvMode.unquoted (acc ++ c :: cs) fs := by
            simp

lemma parseRecAux_plain (cs : List Char) :
    ∀ rest acc fs, cs.any isCsvSpecial = false →
      parseRecAux (cs ++ rest) CsvMode.unquoted acc fs =
        parseRecAux rest CsvMode.unquoted (acc ++ cs) fs := by
  induction cs with
  | nil =>
    intro rest acc fs _
    simp
  | cons c cs ih =>
    intro rest acc fs hsp
    simp only [List.any_cons, Bool.or_eq_false_iff] at hsp
    obtain ⟨hc, hcs⟩ := hsp
    simp only [isCsvSpecial, Bool.or_eq_false_iff, decide_eq_false_iff_not]
      at hc
    obtain ⟨⟨⟨hc1, hc2⟩, hc3⟩, hc4⟩ := hc
    have hstep :
        parseRecAux (c :: (cs ++ rest)) CsvMode.unquoted acc fs =
          parseRecAux (cs ++ rest) CsvMode.unquoted (acc ++ [c]) fs := by
      simp [parseRecAux, hc1, hc2, hc3, hc4]
    calc parseRecAux ((c :: cs) ++ rest) CsvMode.unquoted acc fs =
        parseRecAux (cs ++ rest) CsvMode.unquoted (acc ++ [c]) fs := by
          simp only [List.cons_append]
          exact hstep
      _ = parseRecAux rest CsvMode.unquoted ((acc ++ [c]) ++ cs) fs :=
          ih rest (acc ++ [c]) fs hcs
      _ = parseRecAux rest CsvMode.unquoted (acc ++ c :: cs) fs := by simp

lemma parseRecAux_field (f rest : List Char) (fs : List (List Char))
    (hrest : rest.head? ≠ some '"') :
    parseRecAux (quoteFieldChars f ++ rest) CsvMode.unquoted [] fs =
      parseRecAux rest CsvMode.unquoted f fs := by
  unfold quoteFieldChars
  split
  · have h1 : ('"' :: (escapeQuotes f ++ ['"'])) ++ rest =
        '"' :: (escapeQuotes f ++ '"' :: rest) := by simp
    rw [h1]
    have h2 : parseRecAux ('"' :: (escapeQuotes f ++ '"' :: rest))
        CsvMode.unquoted [] fs =
        parseRecAux (escapeQuotes f ++ '"' :: rest) CsvMode.quoted [] fs := by
      simp [parseRecAux]
    rw [h2, parseRecAux_escaped f rest [] fs hrest]
    simp
  · next hsp =>
    rw [parseRecAux_plain f rest [] fs (by simpa using hsp)]
    simp

lemma parseRecAux_record (fields : List (List Char)) (rest : List Char)
    (hfields : fields ≠ []) :
    ∀ fs, parseRecAux (unparseFieldsChars fields ++ rest) CsvMode.unquoted
      [] fs = some (fs ++ fields, rest) := by
  induction fields with
  | nil => exact absurd rfl hfields
  | cons f tail ih =>
    intro fs
    cases tail with
    | nil =>
      have h1 : unparseFieldsChars [f] ++ rest =
          quoteFieldChars f ++ ('\r' :: '\n' :: rest) := by
        simp [unparseFieldsChars]
      rw [h1, parseRecAux_field f ('\r' :: '\n' :: rest) fs (by simp)]
      simp [parseRecAux]
    | cons f2 tail2 =>
      have h1 : unparseFieldsChars (f :: f2 :: tail2) ++ rest =
          quoteFieldChars f ++
            (',' :: (unparseFieldsChars (f2 :: tail2) ++ rest)) := by
        simp [unparseFieldsChars]
      rw [h1, parseRecAux_field f _ fs (by simp)]
      have h2 : parseRecAux
          (',' :: (unparseFieldsChars (f2 :: tail2) ++ rest))
          CsvMode.unquoted f fs =
          parseRecAux (unparseFieldsChars (f2 :: tail2) ++ rest)
            CsvMode.unquoted [] (fs ++ [f]) := by
        simp [parseRecAux]
      rw [h2, ih (by simp) (fs ++ [f])]
      simp

lemma unparseFieldsChars_ne_nil (fields : List (List Char)) :
    unparseFieldsChars fields ≠ [] := by
  match fields with
  | [] => simp [unparseFieldsChars]
  | [f] =>
    simp only [unparseFieldsChars]
    intro hcontra
    have := congrArg List.length hcontra
    simp at this
  | f :: f2 :: tail =>
    simp only [unparseFieldsChars]
    intro hcontra
    have := congrArg List.length hcontra
    simp at this

lemma parseCsvAux_unparse (rows : List (List (List Char))) :
    ∀ fuel, rows.length ≤ fuel → (∀ r ∈ rows, r ≠ []) →
      parseCsvAux fuel (unparseCsvChars rows) =
        some (rows.map (fun r => r.map String.mk)) := by
  induction rows with
  | nil =>
    intro fuel _ _
    simp [unparseCsvChars, parseCsvAux]
  | cons r rs ih =>
    intro fuel hfuel hne
    cases fuel with
    | zero => simp at hfuel
    | succ fuel =>
      have hr : r ≠ [] := hne r (by simp)
      have hrec := parseRecAux_record r (unparseCsvChars rs) hr []
      cases h : unparseFieldsChars r with
      | nil => exact absurd h (unparseFieldsChars_ne_nil r)
      | cons c cs' =>
        rw [h] at hrec
        have h1 : unparseCsvChars (r :: rs) =
            c :: (cs' ++ unparseCsvChars rs) := by
          simp [unparseCsvChars, h]
        rw [h1]
        simp only [parseCsvAux, List.cons_append]
        have h2 : (c :: cs') ++ unparseCsvChars rs =
            c :: (cs' ++ unparseCsvChars rs) := by simp
        rw [h2] at hrec
        rw [hrec]
        have hih := ih fuel (by simpa using hfuel)
          (fun x hx => hne x (by simp [hx]))
        simp [hih]

lemma unparseCsvChars_length (rows : List (List (List Char))) :
    rows.length ≤ (unparseCsvChars rows).length := by
  induction rows with
  | nil => simp [unparseCsvChars]
  | cons r rs ih =>
    simp only [unparseCsvChars, List.length_append, List.length_cons]
    have h1 : 1 ≤ (unparseFieldsChars r).length := by
      have := unparseFieldsChars_ne_nil r
      cases hx : unparseFieldsChars r with
      | nil => exact absurd hx this
      | cons a as => simp
    omega

lemma string_mk_data (s : String) : String.mk s.data = s := rfl

/-- The CSV writer-reader round trip: reading back the written text yields
the same rows, with no side condition on the field contents. -/
theorem parseCsv_unparseCsv (rows : List (List String))
    (h : ∀ r ∈ rows, r ≠ []) :
    parseCsv (unparseCsv rows) = some rows := by
  have hne : ∀ r ∈ rows.map (fun r => r.map String.data), r ≠ [] := by
    intro r hr
    simp only [List.mem_map] at hr
    obtain ⟨r0, hr0, rfl⟩ := hr
    simpa using h r0 hr0
  have hfuel := unparseCsvChars_length (rows.map (fun r => r.map String.data))
  have hmain := parseCsvAux_unparse (rows.map (fun r => r.map String.data))
      (unparseCsvChars (rows.map (fun r => r.map String.data))).length
      (by simpa using hfuel) hne
  show parseCsvAux
      (unparseCsvChars (rows.map (fun r => r.map String.data))).length
      (unparseCsvChars (rows.map (fun r => r.map String.data))) = some rows
  rw [hmain]
  simp [List.map_map, Function.comp_def, string_mk_data]

/-! ### save_results: rows and file content -/

/-- The ordered rows produced by the loop on lines 114 to 129: one row per
segment, taken from its first alternative. The none result models the
IndexError that alternatives[0] raises on a segment with an empty
alternatives list, which would abort the write midway. -/
def rowsOf : List Segment → Option (List (List String))
  | [] => some []
  | result :: rest =>
    match result.alternatives with
    | [] => none
    | alternative :: _ =>
      (rowsOf rest).map (fun rs => formatRowFields alternative :: rs)

/-- The header row written on lines 111 to 113. -/
def csvHeader : List String := ["timestamp", "confidence", "transcript"]

/-- Lines 110 to 129: the full content of the output file created with
open(output, w, newline disabled): the header row, then one row per
segment in input order. -/
def save_results (results : List Segment) : Option String :=
  (rowsOf results).map (fun rows => unparseCsv (csvHeader :: rows))

lemma rowsOf_isSome (results : List Segment)
    (h : ∀ r ∈ results, r.alternatives ≠ []) :
    ∃ rows, rowsOf results = some rows := by
  induction results with
  | nil => exact ⟨[], rfl⟩
  | cons r rest ih =>
    obtain ⟨rs, hrs⟩ := ih (fun x hx => h x (List.mem_cons_of_mem r hx))
    have hr := h r (List.mem_cons_self r rest)
    cases halt : r.alternatives with
    | nil => exact absurd halt hr
    | cons a tail =>
      exact ⟨formatRowFields a :: rs, by simp [rowsOf, halt, hrs]⟩

lemma rowsOf_eq (results : List Segment) (rows : List (List String))
    (h : rowsOf results = some rows) :
    rows.length = results.length ∧
    ∀ (i : Nat) (seg : Segment), results[i]? = some seg → ∃ a,
      seg.alternatives.head? = some a ∧
      rows[i]? = some (formatRowFields a) := by
  induction results generalizing rows with
  | nil =>
    simp only [rowsOf, Option.some_inj] at h
    subst h
    exact ⟨rfl, by intro i seg hseg; simp at hseg⟩
  | cons result rest ih =>
    simp only [rowsOf] at h
    cases halt : result.alternatives with
    | nil => rw [halt] at h; simp at h
    | cons a tail =>
      rw [halt] at h
      cases hrest : rowsOf rest with
      | none => rw [hrest] at h; simp at h
      | some rs =>
        rw [hrest] at h
        have h2 : formatRowFields a :: rs = rows := by simpa using h
        subst h2
        obtain ⟨hlen, hget⟩ := ih rs hrest
        refine ⟨by simp [hlen], ?_⟩
        intro i seg hseg
        cases i with
        | zero =>
          simp only [List.getElem?_cons_zero, Option.some_inj] at hseg
          subst hseg
          exact ⟨a, by simp [halt], by simp⟩
        | succ i =>
          simp only [List.getElem?_cons_succ] at hseg ⊢
          exact hget i seg hseg

lemma rowsOf_rows_ne_nil (results : List Segment) (rows : List (List String))
    (h : rowsOf results = some rows) :
    ∀ row ∈ rows, row ≠ [] := by
  induction results generalizing rows with
  | nil =>
    simp only [rowsOf, Option.some_inj] at h
    subst h
    simp
  | cons result rest ih =>
    simp only [rowsOf] at h
    cases halt : result.alternatives with
    | nil => rw [halt] at h; simp at h
    | cons a tail =>
      rw [halt] at h
      cases hrest : rowsOf rest with
      | none => rw [hrest] at h; simp at h
      | some rs =>
        rw [hrest] at h
        have h2 : formatRowFields a :: rs = rows := by simpa using h
        subst h2
        intro row hrow
        cases hrow with
        | head => simp [formatRowFields]
        | tail _ hmem => exact ih rs hrest row hmem

/-! ### Pipeline control flow -/

/-- The hardcoded upload bucket (line 37). -/
def UPLOAD_BUCKET_NAME : String := "bjoeris-temp-audio"

/-- Line 77: the argument vector of the external encoder invocation. -/
def ffmpegArgs (filename output : String) : List String :=
  ["ffmpeg", "-i", filename, "-ac", "1", "-ar", "48000",
    "-acodec", "flac", output]

/-- The static request metadata (lines 88 to 91), with the enum values
named by their constant names. -/
structure RecognitionMetadata where
  interaction_type : String
  microphone_distance : String
  recording_device_type : String
deriving DecidableEq

/-- The recognition config (lines 93 to 100). -/
structure RecognitionConfig where
  encoding : String
  sample_rate_hertz : Nat
  language_code : String
  metadata : RecognitionMetadata
  enable_automatic_punctuation : Bool
  enable_word_time_offsets : Bool
deriving DecidableEq

/-- The request configuration built once per invocation by transcribe_gcs. -/
def recognitionConfig : RecognitionConfig :=
  { encoding := "FLAC"
    sample_rate_hertz := 48000
    language_code := "en-US"
    metadata := { interaction_type := "DISCUSSION"
                  microphone_distance := "NEARFIELD"
                  recording_device_type := "PC" }
    enable_automatic_punctuation := true
    enable_word_time_offsets := true }

/-- The terminal state eventually reached by the long-running operation. -/
inductive OperationOutcome
  | completed (results : List Segment)
  | failed (message : String)
deriving DecidableEq

/-- Externally visible actions of one run, in order. -/
inductive Event
  | runSubProcess (argv : List String) (exitCode : Nat)
  | uploadBlob (bucket blobName localFile : String)
  | submitRecognize (uri : String) (config : RecognitionConfig)
  | writeCsv (output content : String)
  | deleteBlob (bucket blobName : String)
deriving DecidableEq

/-- The external world: whether the encoder binary resolves, the exit
status of the encoder process, which local files open successfully, the
clock, and the terminal outcome of the submitted operation. -/
structure Env where
  ffmpegFound : Bool
  ffmpegExitCode : Nat
  canOpen : String → Bool
  now : DateTime
  outcome : OperationOutcome

/-- Python exceptions the pipeline can raise; none are caught locally. -/
inductive PyErr
  | fileNotFound (path : String)
  | operationFailed (message : String)
deriving DecidableEq

/-- The callbacks registered on the operation handle, in registration
order. -/
inductive Callback
  | saveOnDone (output : String)
  | deleteOnDone (bucket blobName : String)
deriving DecidableEq

/-- Lines 74 to 79, transcode_file: derive the output name, invoke the
encoder through subprocess.run — which raises FileNotFoundError when the
binary is missing, but ignores the exit status of the process because no
check argument is passed — and return the output name. -/
def transcode_file (env : Env) (filename : String) :
    List Event × Except PyErr String :=
  let stripped_name := (splitext filename).1
  let output := stripped_name ++ "-transcode.flac"
  if env.ffmpegFound then
    ([Event.runSubProcess (ffmpegArgs filename output) env.ffmpegExitCode],
      Except.ok output)
  else ([], Except.error (PyErr.fileNotFound "ffmpeg"))

/-- Lines 82 to 105, transcribe_gcs: submit the long-running request and
register the callback that saves results on completion. The operation
handle is modelled by its list of registered callbacks. -/
def transcribe_gcs (gcs_uri output : String) : List Event × List Callback :=
  ([Event.submitRecognize gcs_uri recognitionConfig],
    [Callback.saveOnDone output])

/-- Lines 50 to 71, transcribe_file: transcode, open and upload the
transcoded file under the name generated by _safe_filename, submit through
transcribe_gcs, then register the deletion callback. -/
def transcribe_file (env : Env) (filename output : String) :
    List Event × Except PyErr (List Callback) :=
  match transcode_file env filename with
  | (ev1, Except.error e) => (ev1, Except.error e)
  | (ev1, Except.ok transcoded) =>
    if env.canOpen transcoded then
      let blob_name := _safe_filename transcoded env.now
      let uri := "gs://" ++ UPLOAD_BUCKET_NAME ++ "/" ++ blob_name
      let (ev2, cbs) := transcribe_gcs uri output
      (ev1 ++ [Event.uploadBlob UPLOAD_BUCKET_NAME blob_name transcoded]
        ++ ev2,
        Except.ok (cbs ++ [Callback.deleteOnDone UPLOAD_BUCKET_NAME
          blob_name]))
    else (ev1, Except.error (PyErr.fileNotFound transcoded))

/-- One completion callback fired with the terminal outcome. The handle
delivers the outcome to every registered callback once the terminal state
is reached; inside the save callback, result() raises on a failed outcome,
so nothing is written, and the exception is contained to that callback; the
deletion callback deletes unconditionally. -/
def runCallback (env : Env) : Callback → List Event
  | Callback.saveOnDone output =>
    match env.outcome with
    | OperationOutcome.completed results =>
      match save_results results with
      | some content => [Event.writeCsv output content]
      | none => []
    | OperationOutcome.failed _ => []
  | Callback.deleteOnDone bucket blobName =>
    [Event.deleteBlob bucket blobName]

/-- All callbacks fired in registration order after the terminal state. -/
def fireCallbacks (env : Env) (cbs : List Callback) : List Event :=
  (cbs.map (runCallback env)).flatten

/-- Line 149: operation.result() blocks until the terminal state and raises
the operation error when the outcome is failed. -/
def operationResult (env : Env) : Except PyErr Unit :=
  match env.outcome with
  | OperationOutcome.completed _ => Except.ok ()
  | OperationOutcome.failed m => Except.error (PyErr.operationFailed m)

/-- Lines 133 to 149, the entry point: the output path defaults to the
input with its extension replaced by .csv; a gs:// input goes through
transcribe_gcs only, any other input through transcribe_file; the process
then blocks on operation.result(), which resolves after the completion
callbacks have fired. -/
def mainRun (env : Env) (audio_file : String) (out : Option String) :
    List Event × Except PyErr Unit :=
  let output := match out with
    | some o => o
    | none => (splitext audio_file).1 ++ ".csv"
  if pyStartsWith audio_file "gs://" then
    let (ev, cbs) := transcribe_gcs audio_file output
    (ev ++ fireCallbacks env cbs, operationResult env)
  else
    match transcribe_file env audio_file output with
    | (ev, Except.error e) => (ev, Except.error e)
    | (ev, Except.ok cbs) => (ev ++ fireCallbacks env cbs, operationResult env)

/-- The transcoding actions of a trace. -/
def Event.isTranscode : Event → Bool
  | Event.runSubProcess _ _ => true
  | _ => false

/-- The upload actions of a trace. -/
def Event.isUpload : Event → Bool
  | Event.uploadBlob _ _ _ => true
  | _ => false

/-- The submission actions of a trace. -/
def Event.isSubmit : Event → Bool
  | Event.submitRecognize _ _ => true
  | _ => false

/-- The CSV-writing actions of a trace. -/
def Event.isWriteCsv : Event → Bool
  | Event.writeCsv _ _ => true
  | _ => false

/-- The remote-deletion actions of a trace. -/
def Event.isDelete : Event → Bool
  | Event.deleteBlob _ _ => true
  | _ => false

/-! ### Fixtures for concrete instantiations -/

/-- A first alternative whose transcript holds a comma and quotes, with one
word starting at 3725.25 seconds. -/
def exAlt1 : Alternative :=
  { transcript := "hello, \"world\"", confidence := 17/20,
    words := [{ word := "hello", start_time := ⟨3725, 250000000⟩ }] }

/-- A second alternative whose transcript holds a line break, with no
words. -/
def exAlt2 : Alternative :=
  { transcript := "line\r\nbreak", confidence := 1, words := [] }

/-- Two segments with adversarial transcripts. -/
def exampleResults : List Segment := [⟨[exAlt1]⟩, ⟨[exAlt2]⟩]

/-- An environment whose operation fails. -/
def envFailed : Env :=
  { ffmpegFound := true, ffmpegExitCode := 0, canOpen := fun _ => true,
    now := ⟨2020, 1, 2, 3, 4, 5⟩,
    outcome := OperationOutcome.failed "error" }

/-- An environment whose encoder exits with status 1, its output file still
openable. -/
def envBadExit : Env :=
  { ffmpegFound := true, ffmpegExitCode := 1, canOpen := fun _ => true,
    now := ⟨2020, 1, 2, 3, 4, 5⟩,
    outcome := OperationOutcome.completed [] }

/-- An environment with no encoder binary on the path. -/
def envNoFfmpeg : Env :=
  { ffmpegFound := false, ffmpegExitCode := 0, canOpen := fun _ => true,
    now := ⟨2020, 1, 2, 3, 4, 5⟩,
    outcome := OperationOutcome.completed [] }

/-! ### The claims -/

/-! Concrete binary64 evaluations for line 118. The 53-bit significands
and binades below were checked against the exact rounding definition;
float1e9 is the binary64 neighbour of 1e-9, slightly above it. -/

lemma float1e9_val :
    float1e9 = 4835703278458517 / 4835703278458516698824704 := by
  unfold float1e9
  have hm : roundHalfEven ((1 / 1000000000 : ℚ) / 2 ^ ((-30 : ℤ) - 52)) =
      4835703278458517 := by
    have hq : (1 / 1000000000 : ℚ) / 2 ^ ((-30 : ℤ) - 52) =
        4835703278458516698824704 / 1000000000 := by norm_num
    rw [hq]
    have hfl : ⌊(4835703278458516698824704 / 1000000000 : ℚ)⌋ =
        4835703278458516 := by
      rw [Int.floor_eq_iff]
      norm_num
    rw [roundHalfEven_eq_floor_add_one _ (by rw [hfl]; norm_num), hfl]
    norm_num
  rw [fl64_eval (1 / 1000000000) (-30) 4835703278458517 (by norm_num)
    (by norm_num) (by norm_num) hm]
  norm_num

/-- 1e-9 * 999999999 in binary64: the product rounds down to the double
0.999999999, a hair below one second. -/
lemma flprod999_val : fl64 (float1e9 * (999999999 : ℚ)) =
    9007199245733793 / 9007199254740992 := by
  rw [float1e9_val]
  have hq : (4835703278458517 / 4835703278458516698824704 : ℚ) *
      (999999999 : ℚ) =
      4835703273622813721541483 / 4835703278458516698824704 := by norm_num
  rw [hq]
  have hm : roundHalfEven ((4835703273622813721541483 /
      4835703278458516698824704 : ℚ) / 2 ^ ((-1 : ℤ) - 52)) =
      9007199245733793 := by
    have hq2 : (4835703273622813721541483 /
        4835703278458516698824704 : ℚ) / 2 ^ ((-1 : ℤ) - 52) =
        4835703273622813721541483 / 536870912 := by norm_num
    rw [hq2]
    have hfl : ⌊(4835703273622813721541483 / 536870912 : ℚ)⌋ =
        9007199245733793 := by
      rw [Int.floor_eq_iff]
      norm_num
    rw [roundHalfEven_eq_floor _ (by rw [hfl]; norm_num), hfl]
  rw [fl64_eval (4835703273622813721541483 / 4835703278458516698824704)
    (-1) 9007199245733793 (by norm_num) (by norm_num) (by norm_num) hm]
  norm_num

/-- 2^24 + 0.999999999 in binary64: at this magnitude the spacing of
doubles is 2^-28, and the sum rounds up across the whole-second boundary
to exactly 16777217.0. -/
lemma flsum_ce_val : fl64 ((16777216 : ℚ) +
    9007199245733793 / 9007199254740992) = 16777217 := by
  have hq : (16777216 : ℚ) + 9007199245733793 / 9007199254740992 =
      151115736459027892572065 / 9007199254740992 := by norm_num
  rw [hq]
  have hm : roundHalfEven ((151115736459027892572065 /
      9007199254740992 : ℚ) / 2 ^ ((24 : ℤ) - 52)) = 4503599895805952 := by
    have hq2 : (151115736459027892572065 / 9007199254740992 : ℚ) /
        2 ^ ((24 : ℤ) - 52) = 151115736459027892572065 / 33554432 := by
      norm_num
    rw [hq2]
    have hfl : ⌊(151115736459027892572065 / 33554432 : ℚ)⌋ =
        4503599895805951 := by
      rw [Int.floor_eq_iff]
      norm_num
    rw [roundHalfEven_eq_floor_add_one _ (by rw [hfl]; norm_num), hfl]
    norm_num
  rw [fl64_eval (151115736459027892572065 / 9007199254740992) 24
    4503599895805952 (by norm_num) (by norm_num) (by norm_num) hm]
  norm_num

/-- The binary64 value of line 118 at seconds 2^24, nanos 999999999. -/
lemma tsRat_ce : tsRat ⟨16777216, 999999999⟩ = 16777217 := by
  have h1 : tsRat ⟨16777216, 999999999⟩ =
      fl64 ((16777216 : ℚ) + fl64 (float1e9 * (999999999 : ℚ))) := by
    unfold tsRat
    norm_num
  rw [h1, flprod999_val, flsum_ce_val]

/-- 1e-9 * 250000000 in binary64 rounds to exactly one quarter. -/
lemma flprod250_val : fl64 (float1e9 * (250000000 : ℚ)) = 1 / 4 := by
  rw [float1e9_val]
  have hq : (4835703278458517 / 4835703278458516698824704 : ℚ) *
      (250000000 : ℚ) =
      1208925819614629250000000 / 4835703278458516698824704 := by norm_num
  rw [hq]
  have hm : roundHalfEven ((1208925819614629250000000 /
      4835703278458516698824704 : ℚ) / 2 ^ ((-2 : ℤ) - 52)) =
      4503599627370496 := by
    have hq2 : (1208925819614629250000000 /
        4835703278458516698824704 : ℚ) / 2 ^ ((-2 : ℤ) - 52) =
        1208925819614629250000000 / 268435456 := by norm_num
    rw [hq2]
    have hfl : ⌊(1208925819614629250000000 / 268435456 : ℚ)⌋ =
        4503599627370496 := by
      rw [Int.floor_eq_iff]
      norm_num
    rw [roundHalfEven_eq_floor _ (by rw [hfl]; norm_num), hfl]
  rw [fl64_eval (1208925819614629250000000 / 4835703278458516698824704)
    (-2) 4503599627370496 (by norm_num) (by norm_num) (by norm_num) hm]
  norm_num

/-- 3725 + 0.25 is exactly representable: the sum does not round. -/
lemma flsum3725_val : fl64 ((3725 : ℚ) + 1 / 4) = 14901 / 4 := by
  have hq : (3725 : ℚ) + 1 / 4 = 14901 / 4 := by norm_num
  rw [hq]
  have hm : roundHalfEven ((14901 / 4 : ℚ) / 2 ^ ((11 : ℤ) - 52)) =
      8191911382745088 := by
    have hq2 : (14901 / 4 : ℚ) / 2 ^ ((11 : ℤ) - 52) =
        8191911382745088 := by norm_num
    rw [hq2]
    have hfl : ⌊(8191911382745088 : ℚ)⌋ = 8191911382745088 := by
      rw [Int.floor_eq_iff]
      norm_num
    rw [roundHalfEven_eq_floor _ (by rw [hfl]; norm_num), hfl]
  rw [fl64_eval (14901 / 4) 11 8191911382745088 (by norm_num) (by norm_num)
    (by norm_num) hm]
  norm_num

/-- The binary64 value of line 118 at seconds 3725, nanos 250000000. -/
lemma tsRat_example : tsRat ⟨3725, 250000000⟩ = 14901 / 4 := by
  have h1 : tsRat ⟨3725, 250000000⟩ =
      fl64 ((3725 : ℚ) + fl64 (float1e9 * (250000000 : ℚ))) := by
    unfold tsRat
    norm_num
  rw [h1, flprod250_val, flsum3725_val]

lemma floor_tsRat_example : ⌊tsRat ⟨3725, 250000000⟩⌋ = ((3725 : Nat) : ℤ) := by
  rw [tsRat_example, Int.floor_eq_iff]
  norm_num

/-- C2 counterexample: inside the claim domain (nanos below one billion),
at seconds = 2^24 and nanos = 999999999 the binary64 arithmetic of line
118 rounds the value 16777216.999999999 up to the next whole second
16777217.0, so the program prints 4660:20:17, while the truncation of the
start time that the claim describes yields 4660:20:16: the fractional
remainder is rounded across a second boundary, not merely truncated. -/
theorem c2_counterexample_float_rounds_up :
    (999999999 : Nat) < 1000000000 ∧
    tsRat ⟨16777216, 999999999⟩ = 16777217 ∧
    formatTimestamp ⟨16777216, 999999999⟩ = "4660:20:17" ∧
    specTimestampHHMMSS 16777216 = "4660:20:16" ∧
    formatTimestamp ⟨16777216, 999999999⟩ ≠ specTimestampHHMMSS 16777216 := by
  have hfmt : formatTimestamp ⟨16777216, 999999999⟩ = "4660:20:17" := by
    rw [formatTimestamp_trunc_decomp ⟨16777216, 999999999⟩, tsRat_ce]
    have h2 : (⌊(16777217 : ℚ)⌋).toNat = 16777217 := by
      have hf : ⌊(16777217 : ℚ)⌋ = 16777217 := by
        rw [Int.floor_eq_iff]
        norm_num
      rw [hf]
      rfl
    rw [h2]
    decide
  have hspec : specTimestampHHMMSS 16777216 = "4660:20:16" := by decide
  refine ⟨by norm_num, tsRat_ce, hfmt, hspec, ?_⟩
  rw [hfmt, hspec]
  decide

/-- C2 amended: the timestamp field is the start time of the first word
converted to fractional seconds in binary64 — a conversion that itself
rounds, and near whole seconds can round up across the second boundary —
after which lines 119 to 122 truncate the fractional remainder of that
double and decompose its integer part into zero-padded HH:MM:SS. Whenever
the double conversion stays within the start-time second, the originally
claimed truncation of (seconds, nanos) holds, and 3725.25 seconds still
formats as 01:02:05. -/
theorem c2_timestamp_hhmmss_amended :
    (∀ (a : Alternative) (w : WordInfo) (ws : List WordInfo),
      a.words = w :: ws →
      (formatRowFields a)[0]? = some (formatTimestamp w.start_time)) ∧
    (∀ d : Duration,
      formatTimestamp d = specTimestampHHMMSS (⌊tsRat d⌋.toNat)) ∧
    (∀ d : Duration, ⌊tsRat d⌋ = (d.seconds : ℤ) →
      formatTimestamp d = specTimestampHHMMSS d.seconds) ∧
    formatTimestamp ⟨3725, 250000000⟩ = "01:02:05" := by
  refine ⟨?_, formatTimestamp_trunc_decomp, ?_, ?_⟩
  · intro a w ws hw
    simp [formatRowFields, rowTimestampStr, hw]
  · intro d hd
    rw [formatTimestamp_trunc_decomp d, hd]
    simp
  · rw [formatTimestamp_trunc_decomp ⟨3725, 250000000⟩, tsRat_example]
    have h2 : (⌊(14901 / 4 : ℚ)⌋).toNat = 3725 := by
      have hf : ⌊(14901 / 4 : ℚ)⌋ = 3725 := by
        rw [Int.floor_eq_iff]
        norm_num
      rw [hf]
      rfl
    rw [h2]
    decide

/-- C2 witness: the amended theorem applied at the fixture word and at the
3725.25-second start time, its no-crossing hypothesis discharged there. -/
theorem c2_timestamp_hhmmss_amended_witness :
    exAlt1.words = ⟨"hello", ⟨3725, 250000000⟩⟩ :: [] ∧
    (formatRowFields exAlt1)[0]? = some (formatTimestamp ⟨3725, 250000000⟩) ∧
    ⌊tsRat ⟨3725, 250000000⟩⌋ = ((3725 : Nat) : ℤ) ∧
    formatTimestamp ⟨3725, 250000000⟩ = specTimestampHHMMSS 3725 :=
  ⟨rfl,
    c2_timestamp_hhmmss_amended.1 exAlt1 ⟨"hello", ⟨3725, 250000000⟩⟩ [] rfl,
    floor_tsRat_example,
    c2_timestamp_hhmmss_amended.2.2.1 ⟨3725, 250000000⟩ floor_tsRat_example⟩

/-- C7: the confidence field of every row is the first alternative
confidence formatted to exactly two decimal places; 0.8675 formats as 0.87
and 1.0 as 1.00. -/
theorem c7_confidence_two_decimals :
    (∀ (results : List Segment) (rows : List (List String)) (i : Nat)
        (seg : Segment) (a : Alternative),
      rowsOf results = some rows → results[i]? = some seg →
      seg.alternatives.head? = some a →
      rows[i]? = some (formatRowFields a) ∧
      (formatRowFields a)[1]? = some (format2f a.confidence)) ∧
    (∀ q : ℚ, ∃ intPart frac : String,
      format2f q = intPart ++ "." ++ frac ∧ frac.length = 2) ∧
    format2f (8675 / 10000) = "0.87" ∧ format2f 1 = "1.00" := by
  refine ⟨?_, ?_, ?_, ?_⟩
  · intro results rows i seg a hrows hseg ha
    obtain ⟨a', ha', hrow⟩ := (rowsOf_eq results rows hrows).2 i seg hseg
    rw [ha] at ha'
    have heq : a = a' := by injection ha'
    subst heq
    exact ⟨hrow, by simp [formatRowFields]⟩
  · intro q
    exact ⟨(if q < 0 then "-" else "") ++
      toString ((roundHalfEven (q * 100)).natAbs / 100),
      twoDigits ((roundHalfEven (q * 100)).natAbs % 100), rfl, rfl⟩
  · have h1 : (8675 / 10000 : ℚ) * 100 = 347 / 4 := by norm_num
    have hfl : ⌊(347 / 4 : ℚ)⌋ = 86 := by
      rw [Int.floor_eq_iff]
      norm_num
    have hr : roundHalfEven ((8675 / 10000 : ℚ) * 100) = 87 := by
      unfold roundHalfEven
      rw [h1, hfl]
      norm_num
    unfold format2f
    rw [hr, if_neg (by norm_num : ¬ (8675 / 10000 : ℚ) < 0)]
    decide
  · have h1 : (1 : ℚ) * 100 = 100 := by norm_num
    have hfl : ⌊(100 : ℚ)⌋ = 100 := by
      rw [Int.floor_eq_iff]
      norm_num
    have hr : roundHalfEven ((1 : ℚ) * 100) = 100 := by
      unfold roundHalfEven
      rw [h1, hfl]
      norm_num
    unfold format2f
    rw [hr, if_neg (by norm_num : ¬ (1 : ℚ) < 0)]
    decide

/-- C7 witness: the row-level part of the theorem applied to the first
fixture segment. -/
theorem c7_confidence_two_decimals_witness :
    rowsOf exampleResults =
      some [formatRowFields exAlt1, formatRowFields exAlt2] ∧
    exampleResults[0]? = some ⟨[exAlt1]⟩ ∧
    (⟨[exAlt1]⟩ : Segment).alternatives.head? = some exAlt1 ∧
    ([formatRowFields exAlt1, formatRowFields exAlt2][0]? =
        some (formatRowFields exAlt1) ∧
      (formatRowFields exAlt1)[1]? = some (format2f exAlt1.confidence)) :=
  ⟨rfl, rfl, rfl, c7_confidence_two_decimals.1 exampleResults
    [formatRowFields exAlt1, formatRowFields exAlt2] 0 ⟨[exAlt1]⟩ exAlt1
    rfl rfl rfl⟩

/-- C8: a segment whose first alternative has no words gets the empty
string in the timestamp field of its row, whatever start times appear
elsewhere. -/
theorem c8_no_words_empty_timestamp (results : List Segment)
    (rows : List (List String)) (i : Nat) (seg : Segment) (a : Alternative)
    (hrows : rowsOf results = some rows) (hseg : results[i]? = some seg)
    (ha : seg.alternatives.head? = some a) (hw : a.words = []) :
    rows[i]? = some (formatRowFields a) ∧
    (formatRowFields a)[0]? = some "" := by
  obtain ⟨a', ha', hrow⟩ := (rowsOf_eq results rows hrows).2 i seg hseg
  rw [ha] at ha'
  have heq : a = a' := by injection ha'
  subst heq
  exact ⟨hrow, by simp [formatRowFields, rowTimestampStr, hw]⟩

/-- C8 witness: the theorem applied to the wordless fixture segment. -/
theorem c8_no_words_empty_timestamp_witness :
    rowsOf exampleResults =
      some [formatRowFields exAlt1, formatRowFields exAlt2] ∧
    exampleResults[1]? = some ⟨[exAlt2]⟩ ∧
    (⟨[exAlt2]⟩ : Segment).alternatives.head? = some exAlt2 ∧
    exAlt2.words = [] ∧
    ([formatRowFields exAlt1, formatRowFields exAlt2][1]? =
        some (formatRowFields exAlt2) ∧
      (formatRowFields exAlt2)[0]? = some "") :=
  ⟨rfl, rfl, rfl, rfl, c8_no_words_empty_timestamp exampleResults
    [formatRowFields exAlt1, formatRowFields exAlt2] 1 ⟨[exAlt2]⟩ exAlt2
    rfl rfl rfl rfl⟩

/-- C10: when every segment has at least one alternative, save_results
succeeds: the first-alternative indexing is always in bounds and the first
word is read only behind the emptiness check. -/
theorem c10_save_results_total (results : List Segment)
    (h : ∀ r ∈ results, r.alternatives ≠ []) :
    (save_results results).isSome = true := by
  obtain ⟨rows, hrows⟩ := rowsOf_isSome results h
  simp [save_results, hrows]

/-- C10 witness: the theorem applied to the fixture segments. -/
theorem c10_save_results_total_witness :
    (∀ r ∈ exampleResults, r.alternatives ≠ []) ∧
    (save_results exampleResults).isSome = true :=
  ⟨by decide, c10_save_results_total exampleResults (by decide)⟩

/-- C6: with every segment carrying at least one alternative, save_results
produces a CSV text whose parse yields the header plus exactly one row per
segment in input order, with the transcript of each first alternative
carried verbatim in its row, with no condition on the transcript contents:
commas, quotes and line breaks survive the round trip. -/
theorem c6_csv_roundtrip (results : List Segment)
    (h : ∀ r ∈ results, r.alternatives ≠ []) :
    ∃ rows, rowsOf results = some rows ∧
      save_results results = some (unparseCsv (csvHeader :: rows)) ∧
      parseCsv (unparseCsv (csvHeader :: rows)) = some (csvHeader :: rows) ∧
      rows.length = results.length ∧
      ∀ (i : Nat) (seg : Segment), results[i]? = some seg → ∃ a,
        seg.alternatives.head? = some a ∧
        rows[i]? = some (formatRowFields a) ∧
        (formatRowFields a)[2]? = some a.transcript := by
  obtain ⟨rows, hrows⟩ := rowsOf_isSome results h
  obtain ⟨hlen, hget⟩ := rowsOf_eq results rows hrows
  refine ⟨rows, hrows, by simp [save_results, hrows], ?_, hlen, ?_⟩
  · apply parseCsv_unparseCsv
    intro r hr
    cases hr with
    | head => simp [csvHeader]
    | tail _ hmem => exact rowsOf_rows_ne_nil results rows hrows r hmem
  · intro i seg hseg
    obtain ⟨a, ha, hrow⟩ := hget i seg hseg
    exact ⟨a, ha, hrow, by simp [formatRowFields]⟩

/-- C6 witness: the theorem applied to the fixture segments with
adversarial transcripts. -/
theorem c6_csv_roundtrip_witness :
    (∀ r ∈ exampleResults, r.alternatives ≠ []) ∧
    (∃ rows, rowsOf exampleResults = some rows ∧
      save_results exampleResults = some (unparseCsv (csvHeader :: rows)) ∧
      parseCsv (unparseCsv (csvHeader :: rows)) = some (csvHeader :: rows) ∧
      rows.length = exampleResults.length ∧
      ∀ (i : Nat) (seg : Segment), exampleResults[i]? = some seg → ∃ a,
        seg.alternatives.head? = some a ∧
        rows[i]? = some (formatRowFields a) ∧
        (formatRowFields a)[2]? = some a.transcript) :=
  ⟨by decide, c6_csv_roundtrip exampleResults (by decide)⟩

/-- C3: when the operation reaches the failed terminal state on a
local-file run, the deletion callback still deletes the uploaded object
while no CSV write happens: the save callback raises inside result() and
is skipped. -/
theorem c3_failed_still_deletes_no_csv (env : Env) (filename : String)
    (out : Option String) (msg : String)
    (hff : env.ffmpegFound = true)
    (hopen : env.canOpen ((splitext filename).1 ++ "-transcode.flac") = true)
    (hfail : env.outcome = OperationOutcome.failed msg)
    (hlocal : pyStartsWith filename "gs://" = false) :
    (∃ e ∈ (mainRun env filename out).1, e.isDelete = true) ∧
    (∀ e ∈ (mainRun env filename out).1, e.isWriteCsv = false) := by
  simp [mainRun, hlocal, transcribe_file, transcode_file, hff, hopen,
    transcribe_gcs, fireCallbacks, runCallback, hfail,
    Event.isDelete, Event.isWriteCsv]

/-- C3 witness: the theorem applied in the failing environment. -/
theorem c3_failed_still_deletes_no_csv_witness :
    envFailed.ffmpegFound = true ∧
    envFailed.canOpen ((splitext "audio.raw").1 ++ "-transcode.flac") = true ∧
    envFailed.outcome = OperationOutcome.failed "error" ∧
    pyStartsWith "audio.raw" "gs://" = false ∧
    ((∃ e ∈ (mainRun envFailed "audio.raw" none).1, e.isDelete = true) ∧
      (∀ e ∈ (mainRun envFailed "audio.raw" none).1,
        e.isWriteCsv = false)) :=
  ⟨rfl, rfl, rfl, by decide, c3_failed_still_deletes_no_csv envFailed
    "audio.raw" none "error" rfl rfl rfl (by decide)⟩

/-- C4 counterexample: with the encoder present but exiting with status 1,
and its (stale) output file openable, the run does not abort: the trace
records the non-zero exit and still uploads. subprocess.run is called
without a check argument, so the exit status is never inspected. -/
theorem c4_counterexample_nonzero_exit_uploads :
    (∃ e ∈ (mainRun envBadExit "audio.raw" (some "out.csv")).1,
      e = Event.runSubProcess
        (ffmpegArgs "audio.raw" "audio-transcode.flac") 1) ∧
    (∃ e ∈ (mainRun envBadExit "audio.raw" (some "out.csv")).1,
      e.isUpload = true) := by
  decide

/-- C4 amended: a missing encoder binary aborts the run before any upload
with a FileNotFoundError; a non-zero encoder exit status, by contrast, is
not detected: whenever the binary is found and the transcoded output can be
opened, the upload happens whatever the exit status was. -/
theorem c4_amended_abort_only_if_not_found (env : Env)
    (filename out : String)
    (hlocal : pyStartsWith filename "gs://" = false) :
    (env.ffmpegFound = false →
      (mainRun env filename (some out)).2 =
        Except.error (PyErr.fileNotFound "ffmpeg") ∧
      ∀ e ∈ (mainRun env filename (some out)).1, e.isUpload = false) ∧
    (env.ffmpegFound = true →
      env.canOpen ((splitext filename).1 ++ "-transcode.flac") = true →
      ∃ e ∈ (mainRun env filename (some out)).1, e.isUpload = true) := by
  constructor
  · intro hnf
    simp [mainRun, hlocal, transcribe_file, transcode_file, hnf,
      Event.isUpload]
  · intro hff hopen
    simp [mainRun, hlocal, transcribe_file, transcode_file, hff, hopen,
      transcribe_gcs, fireCallbacks, runCallback, Event.isUpload]

/-- C4 amended witness: the two branches of the theorem applied in the
bad-exit and missing-binary environments. -/
theorem c4_amended_abort_only_if_not_found_witness :
    pyStartsWith "audio.raw" "gs://" = false ∧
    envBadExit.ffmpegFound = true ∧
    envBadExit.canOpen ((splitext "audio.raw").1 ++ "-transcode.flac") =
      true ∧
    (∃ e ∈ (mainRun envBadExit "audio.raw" (some "out.csv")).1,
      e.isUpload = true) ∧
    envNoFfmpeg.ffmpegFound = false ∧
    (mainRun envNoFfmpeg "audio.raw" (some "out.csv")).2 =
      Except.error (PyErr.fileNotFound "ffmpeg") :=
  ⟨by decide, rfl, rfl,
    (c4_amended_abort_only_if_not_found envBadExit "audio.raw" "out.csv"
      (by decide)).2 rfl rfl,
    rfl,
    ((c4_amended_abort_only_if_not_found envNoFfmpeg "audio.raw" "out.csv"
      (by decide)).1 rfl).1⟩

/-- C5 counterexample: the sample rate passed to the external transcoder
and the sample_rate_hertz declared in the recognition config are the same
constant, 48000, refuting the claim that the source mixes 16000 and 48000
between these two places. -/
theorem c5_counterexample_rates_agree :
    (ffmpegArgs "audio.raw" "audio-transcode.flac")[6]? =
      some (toString recognitionConfig.sample_rate_hertz) ∧
    recognitionConfig.sample_rate_hertz = 48000 := by
  decide

/-- C5 amended: in every encoder invocation the rate argument is the
decimal rendering of the same constant 48000 that the recognition config
declares as sample_rate_hertz; the code contains no validation of the
transcoded audio against the declared rate, but the two constants agree. -/
theorem c5_amended_single_constant (filename output : String) :
    (ffmpegArgs filename output)[6]? =
      some (toString recognitionConfig.sample_rate_hertz) ∧
    recognitionConfig.sample_rate_hertz = 48000 :=
  ⟨rfl, rfl⟩

/-- C9: for a gs:// input neither the transcoder adapter nor the upload
and cleanup manager runs: the trace holds no transcode, upload or delete
event, while the submission is present. -/
theorem c9_remote_uri_only_submit_and_save (env : Env) (audio_file : String)
    (out : Option String) (h : pyStartsWith audio_file "gs://" = true) :
    (∀ e ∈ (mainRun env audio_file out).1,
      e.isTranscode = false ∧ e.isUpload = false ∧ e.isDelete = false) ∧
    (∃ e ∈ (mainRun env audio_file out).1, e.isSubmit = true) := by
  have hsave : ∀ (output : String) (e : Event),
      e ∈ runCallback env (Callback.saveOnDone output) →
      e.isTranscode = false ∧ e.isUpload = false ∧ e.isDelete = false := by
    intro output e he
    cases houtcome : env.outcome with
    | completed results =>
      cases hsr : save_results results with
      | none =>
        simp [runCallback, houtcome, hsr] at he
      | some content =>
        simp [runCallback, houtcome, hsr] at he
        subst he
        exact ⟨rfl, rfl, rfl⟩
    | failed m =>
      simp [runCallback, houtcome] at he
  constructor
  · intro e he
    simp [mainRun, h, transcribe_gcs, fireCallbacks] at he
    cases he with
    | inl hsubmit =>
      subst hsubmit
      exact ⟨rfl, rfl, rfl⟩
    | inr hcb => exact hsave _ e hcb
  · simp [mainRun, h, transcribe_gcs, fireCallbacks, Event.isSubmit]

/-- C9 witness: the theorem applied to a gs:// input. -/
theorem c9_remote_uri_only_submit_and_save_witness :
    pyStartsWith "gs://cloud-samples-tests/speech/vr.flac" "gs://" = true ∧
    ((∀ e ∈ (mainRun envFailed "gs://cloud-samples-tests/speech/vr.flac"
        none).1,
      e.isTranscode = false ∧ e.isUpload = false ∧ e.isDelete = false) ∧
    (∃ e ∈ (mainRun envFailed "gs://cloud-samples-tests/speech/vr.flac"
        none).1, e.isSubmit = true)) :=
  ⟨by decide, c9_remote_uri_only_submit_and_save envFailed
    "gs://cloud-samples-tests/speech/vr.flac" none (by decide)⟩

end TranscribeAsync
